import Mathlib

/-!
# Traffic light: blocking message queue and phase cycle

A shallow embedding of `src/TrafficLight.cpp`.

* The storage `_messages` of `MessageQueue<T>` is a list whose last element is
  the back of the C++ container (`push_back` appends, `back`/`pop_back` read and
  remove the last element).
* A call to `receive` that stays suspended in `_cond.wait` is the outcome
  `suspended`; reading `back()` of an empty container is the outcome
  `undefined`.
* `waitForGreen` and `cycleThroughPhases` are `while(true)` loops: the first is
  run with an explicit iteration budget, the second is run over the list of
  clock readings and random draws its iterations observe.
* Clock values are integer tick counts (ticks per second is a parameter);
  `duration_cast<seconds>` truncates toward zero. Tick counts are unbounded
  integers: the 64-bit count of a steady clock does not wrap within the life
  of a process.
-/

/-- The two phases of the light (`enum TrafficLightPhase`). -/
inductive TrafficLightPhase where
  | red
  | green
  deriving DecidableEq, Repr

/-- What a call to `receive` yields. -/
inductive ReceiveOutcome (T : Type) where
  /-- The wait predicate `!_messages.empty()` is false: the caller stays suspended. -/
  | suspended : ReceiveOutcome T
  /-- The call returned `msg`. -/
  | returned (msg : T) : ReceiveOutcome T
  /-- The code reached `back()` or `pop_back()` on an empty container. -/
  | undefined : ReceiveOutcome T
  deriving DecidableEq, Repr

namespace MessageQueue

variable {T : Type}

/-- The container operation `back()`: the last element, nothing on an empty container. -/
def back (messages : List T) : Option T :=
  messages.getLast?

/-- The container operation `pop_back()`: drops the last element, nothing on an empty
container. -/
def pop_back (messages : List T) : Option (List T) :=
  match messages with
  | [] => none
  | _ :: _ => some messages.dropLast

/-- `MessageQueue<T>::receive` on the storage `messages` with no concurrent sender:
the outcome and the storage afterwards. -/
def receive (messages : List T) : ReceiveOutcome T × List T :=
  if messages.isEmpty then
    (.suspended, messages)
  else
    match back messages, pop_back messages with
    | some msg, some rest => (.returned msg, rest)
    | _, _ => (.undefined, messages)

/-- `MessageQueue<T>::send`: `_messages.push_back(std::move(msg))`. -/
def send (messages : List T) (msg : T) : List T :=
  messages ++ [msg]

/-- The calls `send(x1)`, ..., `send(xn)` completed in that order. -/
def sendAll (messages : List T) (msgs : List T) : List T :=
  msgs.foldl send messages

end MessageQueue

/-- The data members of a `TrafficLight` the code reads and writes: the current phase and
the storage of its own queue `_messages`. -/
structure TrafficLight where
  _currentPhase : TrafficLightPhase
  _messages : List TrafficLightPhase
  deriving DecidableEq, Repr

/-- The constructor `TrafficLight::TrafficLight()`: the phase is red; the queue member is
default-constructed, that is empty. -/
def TrafficLight.ctor : TrafficLight :=
  { _currentPhase := .red, _messages := [] }

/-- `TrafficLight::getCurrentPhase`. -/
def TrafficLight.getCurrentPhase (light : TrafficLight) : TrafficLightPhase :=
  light._currentPhase

/-- What the loop of `waitForGreen` has done so far. -/
structure WaitState where
  /-- The storage of the queue. -/
  messages : List TrafficLightPhase
  /-- How many calls of `receive` have returned. -/
  receives : Nat
  /-- The values those calls returned, in the order they were received. -/
  consumed : List TrafficLightPhase
  deriving DecidableEq, Repr

/-- How a run of `waitForGreen` ends. -/
inductive WaitOutcome where
  /-- The `return` of line 58 was reached. -/
  | returned (st : WaitState) : WaitOutcome
  /-- A call of `receive` found the storage empty and stays suspended (no sender). -/
  | suspended (st : WaitState) : WaitOutcome
  /-- The iteration budget ran out with the loop still running. -/
  | running (st : WaitState) : WaitOutcome
  /-- A call of `receive` had undefined behaviour. -/
  | undefined : WaitOutcome
  deriving DecidableEq, Repr

/-- The `while(true)` loop of `TrafficLight::waitForGreen`, at most `fuel` iterations,
with no concurrent sender. The 1 ms sleep between iterations changes no state. -/
def waitForGreenLoop : Nat → WaitState → WaitOutcome
  | 0, st => .running st
  | fuel + 1, st =>
    match MessageQueue.receive st.messages with
    | (.suspended, _) => .suspended st
    | (.undefined, _) => .undefined
    | (.returned msg, rest) =>
      let st1 : WaitState :=
        { messages := rest, receives := st.receives + 1, consumed := st.consumed ++ [msg] }
      if msg = TrafficLightPhase.green then .returned st1 else waitForGreenLoop fuel st1

/-- `TrafficLight::waitForGreen` with no concurrent sender. Every iteration that does not end
the run removes one item, so `_messages.length + 1` iterations always decide the outcome
(`waitForGreenLoop_fuel_irrelevant`). -/
def TrafficLight.waitForGreen (light : TrafficLight) : WaitOutcome :=
  waitForGreenLoop (light._messages.length + 1)
    { messages := light._messages, receives := 0, consumed := [] }

/-- `std::chrono::duration_cast<std::chrono::seconds>(d).count()` for a duration of `d` ticks
of a clock with `ticksPerSecond` ticks a second: integer division truncating toward zero. -/
def duration_cast_seconds (ticksPerSecond : Nat) (d : Int) : Int :=
  d.tdiv (ticksPerSecond : Int)

/-- The condition of line 100:
`diff > std::min(3, dice_rand) && diff < std::max(7, dice_rand)`. -/
def firingTest (diff dice_rand : Int) : Bool :=
  decide (diff > min 3 dice_rand) && decide (diff < max 7 dice_rand)

/-- The firing test of lines 98 and 100 on an elapsed time of `elapsed` ticks. -/
def firesAt (ticksPerSecond : Nat) (elapsed dice_rand : Int) : Bool :=
  firingTest (duration_cast_seconds ticksPerSecond elapsed) dice_rand

/-- What one loop iteration of `cycleThroughPhases` reads from outside. -/
structure CycleInput where
  /-- The clock reading stored in `end` (line 97). -/
  now_end : Int
  /-- The clock reading stored in `start` when the toggle fires (line 113). -/
  now_start : Int
  /-- The value `dis(gen)` returns when the toggle fires (line 114). -/
  dice : Int
  deriving DecidableEq, Repr

/-- The light together with the locals `start` and `dice_rand` of `cycleThroughPhases`. -/
structure CycleState where
  light : TrafficLight
  start : Int
  dice_rand : Int
  deriving DecidableEq, Repr

/-- One iteration of the loop of `TrafficLight::cycleThroughPhases` (lines 97 to 117). -/
def cycleIteration (ticksPerSecond : Nat) (st : CycleState) (inp : CycleInput) : CycleState :=
  let diff := duration_cast_seconds ticksPerSecond (inp.now_end - st.start)
  if firingTest diff st.dice_rand then
    if st.light._currentPhase = TrafficLightPhase.green then
      { light :=
          { _currentPhase := .red
            _messages := MessageQueue.send st.light._messages .red }
        start := inp.now_start
        dice_rand := inp.dice }
    else
      { light :=
          { _currentPhase := .green
            _messages := MessageQueue.send st.light._messages .green }
        start := inp.now_start
        dice_rand := inp.dice }
  else
    st

/-- `TrafficLight::cycleThroughPhases` run for the iterations of `inputs`, one cycling thread
and no consumer: `start0` is the clock reading of line 87 and `dice0` the draw of line 93. -/
def TrafficLight.cycleThroughPhases (ticksPerSecond : Nat) (light : TrafficLight)
    (start0 dice0 : Int) (inputs : List CycleInput) : CycleState :=
  inputs.foldl (cycleIteration ticksPerSecond)
    { light := light, start := start0, dice_rand := dice0 }

/-- The queue storage after `cycleThroughPhases` has run the iterations of `inputs` on a
freshly constructed light with no consumer: the values sent so far, oldest first. -/
def sentPhases (ticksPerSecond : Nat) (start0 dice0 : Int) (inputs : List CycleInput) :
    List TrafficLightPhase :=
  (TrafficLight.cycleThroughPhases ticksPerSecond TrafficLight.ctor start0 dice0
    inputs).light._messages

/-- The clock readings `end` of consecutive iterations never decrease. -/
def MonotoneClock (inputs : List CycleInput) : Prop :=
  List.Chain' (fun a b => a.now_end ≤ b.now_end) inputs

/-! ## Lemmas on the queue -/

namespace MessageQueue

variable {T : Type}

lemma receive_append_singleton (p : List T) (x : T) :
    receive (p ++ [x]) = (.returned x, p) := by
  have hne : (p ++ [x]).isEmpty = false := by
    cases p <;> rfl
  have hpop : pop_back (p ++ [x]) = some p := by
    cases p with
    | nil => rfl
    | cons a t =>
      show some ((a :: t ++ [x]).dropLast) = some (a :: t)
      rw [List.dropLast_concat]
  simp [receive, hne, back, hpop]

lemma sendAll_eq_append (q xs : List T) : sendAll q xs = q ++ xs := by
  induction xs generalizing q with
  | nil => simp [sendAll]
  | cons x t ih =>
    have : sendAll q (x :: t) = sendAll (send q x) t := rfl
    rw [this, ih, send]
    simp

end MessageQueue

/-! ## Lemmas on `waitForGreen` -/

lemma waitForGreenLoop_nil (fuel n : Nat) (c : List TrafficLightPhase) :
    waitForGreenLoop (fuel + 1) { messages := [], receives := n, consumed := c }
      = .suspended { messages := [], receives := n, consumed := c } := by
  simp [waitForGreenLoop, MessageQueue.receive]

lemma waitForGreenLoop_concat (fuel n : Nat) (p c : List TrafficLightPhase)
    (x : TrafficLightPhase) :
    waitForGreenLoop (fuel + 1) { messages := p ++ [x], receives := n, consumed := c }
      = if x = TrafficLightPhase.green then
          .returned { messages := p, receives := n + 1, consumed := c ++ [x] }
        else
          waitForGreenLoop fuel { messages := p, receives := n + 1, consumed := c ++ [x] } := by
  simp [waitForGreenLoop, MessageQueue.receive_append_singleton]

/-- Once the budget exceeds the number of stored items, a larger budget changes nothing. -/
lemma waitForGreenLoop_fuel_irrelevant (fuel k : Nat) (st : WaitState)
    (hf : st.messages.length < fuel) (hk : st.messages.length < k) :
    waitForGreenLoop fuel st = waitForGreenLoop k st := by
  induction fuel generalizing k st with
  | zero => omega
  | succ f ih =>
    obtain ⟨k1, rfl⟩ : ∃ k1, k = k1 + 1 := ⟨k - 1, by omega⟩
    obtain ⟨m, n, c⟩ := st
    rcases List.eq_nil_or_concat m with h | ⟨p, x, h⟩
    · subst h
      rw [waitForGreenLoop_nil, waitForGreenLoop_nil]
    · have hm : m = p ++ [x] := by simpa using h
      subst hm
      rw [waitForGreenLoop_concat, waitForGreenLoop_concat]
      by_cases hx : x = TrafficLightPhase.green
      · simp [hx]
      · simp only [hx, if_false]
        simp only [List.length_append, List.length_singleton] at hf hk
        exact ih k1 _ (by simpa using by omega) (by simpa using by omega)

/-- With a budget above the number of stored items the loop is never cut short. -/
lemma waitForGreenLoop_decided (fuel : Nat) (st : WaitState)
    (hf : st.messages.length < fuel) (s : WaitState) :
    waitForGreenLoop fuel st ≠ .running s := by
  induction fuel generalizing st with
  | zero => omega
  | succ f ih =>
    obtain ⟨m, n, c⟩ := st
    rcases List.eq_nil_or_concat m with h | ⟨p, x, h⟩
    · subst h
      rw [waitForGreenLoop_nil]
      simp
    · have hm : m = p ++ [x] := by simpa using h
      subst hm
      rw [waitForGreenLoop_concat]
      by_cases hx : x = TrafficLightPhase.green
      · simp [hx]
      · simp only [hx, if_false]
        simp only [List.length_append, List.length_singleton] at hf
        exact ih _ (by simpa using by omega)

/-- The loop on a storage `p ++ [green] ++ r` with `r` all red, budget above `|r|`. -/
lemma waitForGreenLoop_reds (r : List TrafficLightPhase) :
    (∀ x ∈ r, x = TrafficLightPhase.red) →
    ∀ (p c : List TrafficLightPhase) (n fuel : Nat), r.length + 1 ≤ fuel →
      waitForGreenLoop fuel
          { messages := p ++ [TrafficLightPhase.green] ++ r, receives := n, consumed := c }
        = .returned
          { messages := p, receives := n + (r.length + 1),
            consumed := c ++ (r.reverse ++ [TrafficLightPhase.green]) } := by
  induction r using List.reverseRecOn with
  | nil =>
    intro _ p c n fuel hf
    obtain ⟨f, rfl⟩ : ∃ f, fuel = f + 1 := ⟨fuel - 1, by simp at hf; omega⟩
    simp [waitForGreenLoop_concat]
  | append_singleton r1 x ih =>
    intro hr p c n fuel hf
    have hx : x = TrafficLightPhase.red := hr x (by simp)
    subst hx
    simp only [List.length_append, List.length_singleton] at hf
    obtain ⟨f, rfl⟩ : ∃ f, fuel = f + 1 := ⟨fuel - 1, by omega⟩
    have hassoc : p ++ [TrafficLightPhase.green] ++ (r1 ++ [TrafficLightPhase.red])
        = (p ++ [TrafficLightPhase.green] ++ r1) ++ [TrafficLightPhase.red] := by simp
    rw [hassoc, waitForGreenLoop_concat]
    have hne : ¬ (TrafficLightPhase.red = TrafficLightPhase.green) := by decide
    simp only [hne, if_false]
    rw [ih (fun y hy => hr y (by simp [hy])) p _ _ f (by omega)]
    simp [Nat.add_assoc, Nat.add_comm]

/-- The loop on a storage `p ++ [green] ++ r` with `r` all red is still running after any
budget of at most `|r|` iterations. -/
lemma waitForGreenLoop_reds_running (r : List TrafficLightPhase) :
    (∀ x ∈ r, x = TrafficLightPhase.red) →
    ∀ (p c : List TrafficLightPhase) (n fuel : Nat), fuel ≤ r.length →
      ∃ st, waitForGreenLoop fuel
          { messages := p ++ [TrafficLightPhase.green] ++ r, receives := n, consumed := c }
        = .running st := by
  induction r using List.reverseRecOn with
  | nil =>
    intro _ p c n fuel hf
    obtain rfl : fuel = 0 := by simpa using hf
    exact ⟨_, rfl⟩
  | append_singleton r1 x ih =>
    intro hr p c n fuel hf
    have hx : x = TrafficLightPhase.red := hr x (by simp)
    subst hx
    simp only [List.length_append, List.length_singleton] at hf
    cases fuel with
    | zero => exact ⟨_, rfl⟩
    | succ f =>
      have hassoc : p ++ [TrafficLightPhase.green] ++ (r1 ++ [TrafficLightPhase.red])
          = (p ++ [TrafficLightPhase.green] ++ r1) ++ [TrafficLightPhase.red] := by simp
      rw [hassoc, waitForGreenLoop_concat]
      have hne : ¬ (TrafficLightPhase.red = TrafficLightPhase.green) := by decide
      simp only [hne, if_false]
      exact ih (fun y hy => hr y (by simp [hy])) p _ _ f (by omega)

/-! ## Lemmas on the firing test and the cycle -/

lemma firingTest_eq (d t : Int) (h4 : 4 ≤ t) (h6 : t ≤ 6) :
    firingTest d t = (decide (3 < d) && decide (d < 7)) := by
  have hmin : min 3 t = 3 := min_eq_left (by omega)
  have hmax : max 7 t = 7 := max_eq_left (by omega)
  simp [firingTest, hmin, hmax]

lemma duration_cast_seconds_nonneg (tps : Nat) (e : Int) (he : 0 ≤ e) :
    duration_cast_seconds tps e = e / (tps : Int) := by
  unfold duration_cast_seconds
  exact Int.tdiv_eq_ediv he (Int.ofNat_nonneg tps)

lemma duration_cast_seconds_neg (tps : Nat) (e : Int) (he : e < 0) :
    duration_cast_seconds tps e ≤ 0 := by
  unfold duration_cast_seconds
  have h : 0 ≤ (-e).tdiv (tps : Int) := Int.tdiv_nonneg (by omega) (Int.ofNat_nonneg tps)
  rw [Int.neg_tdiv] at h
  omega

/-- A whole-second count of 7 or more stays 7 or more at every later clock reading. -/
lemma duration_cast_seconds_mono_of_seven (tps : Nat) (htps : 0 < tps) (a b : Int)
    (hab : a ≤ b) (h7 : 7 ≤ duration_cast_seconds tps a) :
    7 ≤ duration_cast_seconds tps b := by
  have ha : 0 ≤ a := by
    by_contra hneg
    have := duration_cast_seconds_neg tps a (by omega)
    omega
  rw [duration_cast_seconds_nonneg tps a ha] at h7
  rw [duration_cast_seconds_nonneg tps b (by omega)]
  have hpos : (0 : Int) < (tps : Int) := by exact_mod_cast htps
  exact le_trans h7 (Int.ediv_le_ediv hpos hab)

lemma firingTest_false_of_seven (d t : Int) (h4 : 4 ≤ t) (h6 : t ≤ 6) (h7 : 7 ≤ d) :
    firingTest d t = false := by
  rw [firingTest_eq d t h4 h6]
  have : ¬ d < 7 := by omega
  simp [this]

lemma cycleIteration_of_not_firing (tps : Nat) (st : CycleState) (inp : CycleInput)
    (h : firesAt tps (inp.now_end - st.start) st.dice_rand = false) :
    cycleIteration tps st inp = st := by
  unfold firesAt at h
  simp [cycleIteration, h]

/-- From an iteration whose whole-second count is 7 or more on, under a monotone clock, no
iteration fires and the state never changes. -/
lemma cycle_stuck (tps : Nat) (htps : 0 < tps) (st : CycleState)
    (h4 : 4 ≤ st.dice_rand) (h6 : st.dice_rand ≤ 6) (rest : List CycleInput) :
    ∀ inp : CycleInput, 7 ≤ duration_cast_seconds tps (inp.now_end - st.start) →
      List.Chain (fun a b => a.now_end ≤ b.now_end) inp rest →
      (∀ j ∈ inp :: rest, firesAt tps (j.now_end - st.start) st.dice_rand = false) ∧
        (inp :: rest).foldl (cycleIteration tps) st = st := by
  induction rest with
  | nil =>
    intro inp h7 _
    have hf : firesAt tps (inp.now_end - st.start) st.dice_rand = false :=
      firingTest_false_of_seven _ _ h4 h6 h7
    refine ⟨?_, ?_⟩
    · intro j hj
      obtain rfl : j = inp := by simpa using hj
      exact hf
    · simp [cycleIteration_of_not_firing tps st inp hf]
  | cons b t ih =>
    intro inp h7 hc
    rw [List.chain_cons] at hc
    have hf : firesAt tps (inp.now_end - st.start) st.dice_rand = false :=
      firingTest_false_of_seven _ _ h4 h6 h7
    have h7b : 7 ≤ duration_cast_seconds tps (b.now_end - st.start) :=
      duration_cast_seconds_mono_of_seven tps htps _ _ (by have := hc.1; omega) h7
    obtain ⟨ih1, ih2⟩ := ih b h7b hc.2
    refine ⟨?_, ?_⟩
    · intro j hj
      rcases List.mem_cons.mp hj with rfl | hj
      · exact hf
      · exact ih1 j hj
    · rw [List.foldl_cons, cycleIteration_of_not_firing tps st inp hf]
      exact ih2

/-- The value the `k`-th send (counting from 0) carries when the sends alternate from green. -/
lemma alternating_getElem (m : List TrafficLightPhase) (n : Nat)
    (h : m = (List.range n).map
      (fun k => if k % 2 = 0 then TrafficLightPhase.green else TrafficLightPhase.red)) (k : Nat) :
    m[k]? = if k < m.length then
        some (if k % 2 = 0 then TrafficLightPhase.green else TrafficLightPhase.red)
      else none := by
  subst h
  by_cases hk : k < n
  · simp [hk]
  · have hle : n ≤ k := by omega
    simp [hk, hle]

/-- One iteration keeps the sent values alternating from green, and keeps the current phase
equal to the last sent value (red before the first send). -/
lemma cycleIteration_alternating (tps : Nat) (st : CycleState) (inp : CycleInput)
    (hm : st.light._messages = (List.range st.light._messages.length).map
      (fun k => if k % 2 = 0 then TrafficLightPhase.green else TrafficLightPhase.red))
    (hp : st.light._currentPhase
      = if st.light._messages.length % 2 = 0 then TrafficLightPhase.red
        else TrafficLightPhase.green) :
    (cycleIteration tps st inp).light._messages
        = (List.range (cycleIteration tps st inp).light._messages.length).map
          (fun k => if k % 2 = 0 then TrafficLightPhase.green else TrafficLightPhase.red) ∧
      (cycleIteration tps st inp).light._currentPhase
        = if (cycleIteration tps st inp).light._messages.length % 2 = 0 then
            TrafficLightPhase.red
          else TrafficLightPhase.green := by
  unfold cycleIteration
  by_cases hfire :
      firingTest (duration_cast_seconds tps (inp.now_end - st.start)) st.dice_rand = true
  · by_cases hg : st.light._currentPhase = TrafficLightPhase.green
    · have hodd : st.light._messages.length % 2 = 1 := by
        by_contra hne
        have h0 : st.light._messages.length % 2 = 0 := by omega
        rw [h0] at hp
        simp at hp
        rw [hp] at hg
        exact absurd hg (by decide)
      have hne : ¬ st.light._messages.length % 2 = 0 := by omega
      have hsucc : (st.light._messages.length + 1) % 2 = 0 := by omega
      simp only [hfire, hg, if_true, MessageQueue.send, List.length_append,
        List.length_singleton, List.range_succ, List.map_append, List.map_singleton, hne,
        if_false, hsucc]
      exact ⟨by rw [← hm], trivial⟩
    · have heven : st.light._messages.length % 2 = 0 := by
        by_contra hne
        rw [if_neg hne] at hp
        exact hg hp
      have hsucc : ¬ (st.light._messages.length + 1) % 2 = 0 := by omega
      simp only [hfire, hg, if_true, if_false, MessageQueue.send, List.length_append,
        List.length_singleton, List.range_succ, List.map_append, List.map_singleton, heven,
        hsucc]
      exact ⟨by rw [← hm], trivial⟩
  · simp only [hfire]
    exact ⟨hm, hp⟩

lemma cycle_alternating (tps : Nat) (inputs : List CycleInput) :
    ∀ st : CycleState,
      st.light._messages = (List.range st.light._messages.length).map
        (fun k => if k % 2 = 0 then TrafficLightPhase.green else TrafficLightPhase.red) →
      st.light._currentPhase
        = (if st.light._messages.length % 2 = 0 then TrafficLightPhase.red
          else TrafficLightPhase.green) →
      (inputs.foldl (cycleIteration tps) st).light._messages
        = (List.range (inputs.foldl (cycleIteration tps) st).light._messages.length).map
          (fun k => if k % 2 = 0 then TrafficLightPhase.green else TrafficLightPhase.red) := by
  induction inputs with
  | nil => intro st hm _; exact hm
  | cons i t ih =>
    intro st hm hp
    obtain ⟨h1, h2⟩ := cycleIteration_alternating tps st i hm hp
    exact ih _ h1 h2

lemma cycleIteration_of_firing (tps : Nat) (st : CycleState) (inp : CycleInput)
    (h : firesAt tps (inp.now_end - st.start) st.dice_rand = true) :
    (cycleIteration tps st inp).light._messages.length = st.light._messages.length + 1 ∧
      (cycleIteration tps st inp).start = inp.now_start ∧
      (cycleIteration tps st inp).dice_rand = inp.dice := by
  unfold firesAt at h
  unfold cycleIteration
  simp only [h, if_true]
  split <;> simp [MessageQueue.send]

/-- Every number of toggles is reached by some run with a monotone clock and draws in
4..6: an iteration every 4 seconds on a clock that ticks once a second. -/
lemma sentPhases_reaches_every_count (n : Nat) :
    ∃ inputs : List CycleInput, MonotoneClock inputs ∧
      (∀ i ∈ inputs, 4 ≤ i.dice ∧ i.dice ≤ 6) ∧ (sentPhases 1 0 4 inputs).length = n := by
  refine ⟨(List.range n).map
    (fun (k : Nat) => (⟨4 * ((k : Int) + 1), 4 * ((k : Int) + 1), 4⟩ : CycleInput)), ?_, ?_, ?_⟩
  · unfold MonotoneClock
    rw [List.chain'_map]
    cases n with
    | zero => simp
    | succ m =>
      rw [List.chain'_range_succ]
      intro k _
      push_cast
      omega
  · intro i hi
    simp only [List.mem_map] at hi
    obtain ⟨k, _, rfl⟩ := hi
    simp
  · have key : ∀ m : Nat, ∀ S : CycleState,
        S = ((List.range m).map
          (fun (k : Nat) =>
            (⟨4 * ((k : Int) + 1), 4 * ((k : Int) + 1), 4⟩ : CycleInput))).foldl
          (cycleIteration 1) { light := TrafficLight.ctor, start := 0, dice_rand := 4 } →
        S.light._messages.length = m ∧ S.start = 4 * (m : Int) ∧ S.dice_rand = 4 := by
      intro m
      induction m with
      | zero =>
        intro S hS
        subst hS
        simp [TrafficLight.ctor]
      | succ m ih =>
        intro S hS
        rw [List.range_succ, List.map_append, List.foldl_append] at hS
        obtain ⟨h1, h2, h3⟩ := ih _ rfl
        simp only [List.map_singleton, List.foldl_cons, List.foldl_nil] at hS
        have hfire : firesAt 1
            ((⟨4 * ((m : Int) + 1), 4 * ((m : Int) + 1), 4⟩ : CycleInput).now_end
              - (((List.range m).map
                (fun (k : Nat) =>
                  (⟨4 * ((k : Int) + 1), 4 * ((k : Int) + 1), 4⟩ : CycleInput))).foldl
                (cycleIteration 1)
                { light := TrafficLight.ctor, start := 0, dice_rand := 4 }).start)
            (((List.range m).map
                (fun (k : Nat) =>
                  (⟨4 * ((k : Int) + 1), 4 * ((k : Int) + 1), 4⟩ : CycleInput))).foldl
                (cycleIteration 1)
                { light := TrafficLight.ctor, start := 0, dice_rand := 4 }).dice_rand
            = true := by
          rw [h2, h3]
          have : 4 * ((m : Int) + 1) - 4 * (m : Int) = 4 := by ring
          simp only [this]
          decide
        obtain ⟨g1, g2, g3⟩ := cycleIteration_of_firing 1 _ _ hfire
        rw [← hS] at g1 g2 g3
        refine ⟨by rw [g1, h1], ?_, g3⟩
        rw [g2]
        push_cast
        ring
    exact (key n _ rfl).1

/-! ## Theorems on the queue -/

/-- C1: on every non-empty storage `s`, `receive` returns the last element of `s` (the most
recently appended item) and leaves the storage equal to `s` without that last element, the
remaining items unchanged and in the same order. -/
theorem MessageQueue.receive_returns_last {T : Type} (s : List T) (h : s ≠ []) :
    MessageQueue.receive s = (.returned (s.getLast h), s.dropLast) ∧
      s = (MessageQueue.receive s).2 ++ [s.getLast h] := by
  have hs : s = s.dropLast ++ [s.getLast h] := (List.dropLast_append_getLast h).symm
  have hr : MessageQueue.receive s = (.returned (s.getLast h), s.dropLast) := by
    conv_lhs => rw [hs]
    exact MessageQueue.receive_append_singleton _ _
  refine ⟨hr, ?_⟩
  rw [hr]
  exact hs

theorem MessageQueue.receive_returns_last_witness :
    MessageQueue.receive [1, 2, 3] = (.returned 3, [1, 2]) ∧
      [1, 2, 3] = (MessageQueue.receive [1, 2, 3]).2 ++ [3] :=
  MessageQueue.receive_returns_last [1, 2, 3] (by decide)

/-- C2: `receive` yields no result (stays suspended) and leaves the storage unchanged exactly
when the storage is empty, yields a result for every non-empty storage, and never reaches
`back()`/`pop_back()` on an empty storage. -/
theorem MessageQueue.receive_suspends_iff_empty {T : Type} (s : List T) :
    ((MessageQueue.receive s).1 = .suspended ↔ s = []) ∧
      (s = [] → MessageQueue.receive s = (.suspended, [])) ∧
      (s ≠ [] → ∃ msg, (MessageQueue.receive s).1 = .returned msg) ∧
      (MessageQueue.receive s).1 ≠ .undefined := by
  rcases List.eq_nil_or_concat s with h | ⟨p, x, h⟩
  · subst h
    simp [MessageQueue.receive]
  · have hs : s = p ++ [x] := by simpa using h
    subst hs
    rw [MessageQueue.receive_append_singleton]
    simp

/-- C3: after `send(x1)`, ..., `send(xn)` (n at least 1) on any storage `q`, the next `receive`
does not suspend, returns an item of the sent sequence (the last one sent, which is `x1` when
n = 1), and for n = 1 leaves the storage equal to `q`. -/
theorem MessageQueue.receive_after_sends {T : Type} (q xs : List T) (h : xs ≠ []) :
    MessageQueue.receive (MessageQueue.sendAll q xs)
        = (.returned (xs.getLast h), MessageQueue.sendAll q xs.dropLast) ∧
      xs.getLast h ∈ xs ∧
      (∀ x, xs = [x] → MessageQueue.receive (MessageQueue.sendAll q xs) = (.returned x, q)) := by
  have hs : xs = xs.dropLast ++ [xs.getLast h] := (List.dropLast_append_getLast h).symm
  have hr : MessageQueue.receive (MessageQueue.sendAll q xs)
      = (.returned (xs.getLast h), MessageQueue.sendAll q xs.dropLast) := by
    rw [MessageQueue.sendAll_eq_append, MessageQueue.sendAll_eq_append]
    conv_lhs => rw [hs, ← List.append_assoc]
    exact MessageQueue.receive_append_singleton _ _
  refine ⟨hr, List.getLast_mem h, ?_⟩
  intro x hx
  subst hx
  exact MessageQueue.receive_append_singleton q x

theorem MessageQueue.receive_after_sends_witness :
    MessageQueue.receive (MessageQueue.sendAll [7] [1, 2])
        = (.returned 2, MessageQueue.sendAll [7] [1]) ∧
      2 ∈ [1, 2] ∧
      (∀ x, [1, 2] = [x] →
        MessageQueue.receive (MessageQueue.sendAll [7] [1, 2]) = (.returned x, [7])) :=
  MessageQueue.receive_after_sends [7] [1, 2] (by decide)


/-! ## Theorems on `waitForGreen` -/

/-- C4, as stated, fails: with `red` then `green` sent into the empty queue, `waitForGreen`
returns after removing only the `green` (the `red` sent before it stays in the queue), so the
removed items are not the items of the sequence up through its first green, in any order. -/
theorem TrafficLight.waitForGreen_first_green_refuted :
    ¬ (∀ s : List TrafficLightPhase, s.getLast? = some TrafficLightPhase.green →
        ∃ st, TrafficLight.waitForGreen
            { _currentPhase := TrafficLightPhase.red
              _messages := MessageQueue.sendAll TrafficLight.ctor._messages s }
              = .returned st ∧
          st.consumed.Perm
            (s.takeWhile (fun x => decide (x ≠ TrafficLightPhase.green))
              ++ [TrafficLightPhase.green])) := by
  intro h
  obtain ⟨st, hst, hperm⟩ := h [TrafficLightPhase.red, TrafficLightPhase.green] rfl
  have hrun : TrafficLight.waitForGreen
      { _currentPhase := TrafficLightPhase.red
        _messages := MessageQueue.sendAll TrafficLight.ctor._messages
          [TrafficLightPhase.red, TrafficLightPhase.green] }
      = .returned
        { messages := [TrafficLightPhase.red], receives := 1,
          consumed := [TrafficLightPhase.green] } := by decide
  rw [hrun] at hst
  injection hst with hst
  subst hst
  have hlen := hperm.length_eq
  revert hlen
  decide

/-- C4, amended: for every sequence `s` that ends in green and is sent, in order, into the
empty queue of a light, `waitForGreen` returns after a single receive; the one item it has
removed is the last item of `s` (the most recently sent green), and every earlier item of `s`
is still in the queue, in order. -/
theorem TrafficLight.waitForGreen_consumes_last_green (phase : TrafficLightPhase)
    (s : List TrafficLightPhase) (h : s.getLast? = some TrafficLightPhase.green) :
    TrafficLight.waitForGreen
        { _currentPhase := phase
          _messages := MessageQueue.sendAll TrafficLight.ctor._messages s }
      = .returned
        { messages := s.dropLast, receives := 1, consumed := [TrafficLightPhase.green] } ∧
      s = s.dropLast ++ [TrafficLightPhase.green] := by
  have hs : s = s.dropLast ++ [TrafficLightPhase.green] := by
    rcases List.eq_nil_or_concat s with h0 | ⟨p, x, h0⟩
    · subst h0
      simp at h
    · have hm : s = p ++ [x] := by simpa using h0
      subst hm
      simp at h
      simp [h]
  refine ⟨?_, hs⟩
  have hq : MessageQueue.sendAll TrafficLight.ctor._messages s
      = s.dropLast ++ [TrafficLightPhase.green] := by
    rw [MessageQueue.sendAll_eq_append]
    simpa [TrafficLight.ctor] using hs
  unfold TrafficLight.waitForGreen
  simp only [hq]
  rw [waitForGreenLoop_concat]
  simp

theorem TrafficLight.waitForGreen_consumes_last_green_witness :
    TrafficLight.waitForGreen
        { _currentPhase := TrafficLightPhase.red
          _messages := MessageQueue.sendAll TrafficLight.ctor._messages
            [TrafficLightPhase.green, TrafficLightPhase.red, TrafficLightPhase.red,
              TrafficLightPhase.green] }
      = .returned
        { messages := [TrafficLightPhase.green, TrafficLightPhase.red, TrafficLightPhase.red,
            TrafficLightPhase.green].dropLast,
          receives := 1, consumed := [TrafficLightPhase.green] } ∧
      [TrafficLightPhase.green, TrafficLightPhase.red, TrafficLightPhase.red,
          TrafficLightPhase.green]
        = [TrafficLightPhase.green, TrafficLightPhase.red, TrafficLightPhase.red,
            TrafficLightPhase.green].dropLast ++ [TrafficLightPhase.green] :=
  TrafficLight.waitForGreen_consumes_last_green TrafficLightPhase.red
    [TrafficLightPhase.green, TrafficLightPhase.red, TrafficLightPhase.red,
      TrafficLightPhase.green] (by decide)

/-- C9: on a storage `p ++ [green] ++ r` with `r` all red and no concurrent sender,
`waitForGreen` returns after exactly `|r| + 1` receives (no smaller number of loop iterations
ends it, every larger budget gives the same result), having received the reds of `r` and then
that green, and leaves the storage equal to `p`; after `send(green)`, `send(red)`,
`send(green)` into an empty queue it consumes only the last-sent green and leaves
`[green, red]`. -/
theorem TrafficLight.waitForGreen_reds_after_green (phase : TrafficLightPhase)
    (p r : List TrafficLightPhase) (hr : ∀ x ∈ r, x = TrafficLightPhase.red) :
    TrafficLight.waitForGreen
        { _currentPhase := phase, _messages := p ++ [TrafficLightPhase.green] ++ r }
      = .returned
        { messages := p, receives := r.length + 1,
          consumed := List.replicate r.length TrafficLightPhase.red
            ++ [TrafficLightPhase.green] } ∧
      (∀ fuel, r.length + 1 ≤ fuel →
        waitForGreenLoop fuel
            { messages := p ++ [TrafficLightPhase.green] ++ r, receives := 0, consumed := [] }
          = TrafficLight.waitForGreen
            { _currentPhase := phase, _messages := p ++ [TrafficLightPhase.green] ++ r }) ∧
      (∀ fuel, fuel ≤ r.length →
        ∃ st, waitForGreenLoop fuel
            { messages := p ++ [TrafficLightPhase.green] ++ r, receives := 0, consumed := [] }
          = .running st) ∧
      TrafficLight.waitForGreen
          { _currentPhase := phase
            _messages := MessageQueue.sendAll []
              [TrafficLightPhase.green, TrafficLightPhase.red, TrafficLightPhase.green] }
        = .returned
          { messages := [TrafficLightPhase.green, TrafficLightPhase.red], receives := 1,
            consumed := [TrafficLightPhase.green] } := by
  have hrev : r.reverse = List.replicate r.length TrafficLightPhase.red := by
    rw [List.eq_replicate_iff]
    exact ⟨by simp, fun x hx => hr x (by simpa using hx)⟩
  have hloop : ∀ fuel, r.length + 1 ≤ fuel →
      waitForGreenLoop fuel
          { messages := p ++ [TrafficLightPhase.green] ++ r, receives := 0, consumed := [] }
        = .returned
          { messages := p, receives := r.length + 1,
            consumed := List.replicate r.length TrafficLightPhase.red
              ++ [TrafficLightPhase.green] } := by
    intro fuel hf
    rw [waitForGreenLoop_reds r hr p [] 0 fuel hf, hrev]
    simp
  have hmain : TrafficLight.waitForGreen
        { _currentPhase := phase, _messages := p ++ [TrafficLightPhase.green] ++ r }
      = .returned
        { messages := p, receives := r.length + 1,
          consumed := List.replicate r.length TrafficLightPhase.red
            ++ [TrafficLightPhase.green] } := by
    unfold TrafficLight.waitForGreen
    exact hloop _ (by simp; omega)
  refine ⟨hmain, ?_, ?_, ?_⟩
  · intro fuel hf
    rw [hmain]
    exact hloop fuel hf
  · intro fuel hf
    exact waitForGreenLoop_reds_running r hr p [] 0 fuel hf
  · cases phase <;> decide

theorem TrafficLight.waitForGreen_reds_after_green_witness :
    TrafficLight.waitForGreen
        { _currentPhase := TrafficLightPhase.red
          _messages := [TrafficLightPhase.red] ++ [TrafficLightPhase.green]
            ++ [TrafficLightPhase.red, TrafficLightPhase.red] }
      = .returned
        { messages := [TrafficLightPhase.red], receives := 3,
          consumed := [TrafficLightPhase.red, TrafficLightPhase.red, TrafficLightPhase.green] } :=
  (TrafficLight.waitForGreen_reds_after_green TrafficLightPhase.red [TrafficLightPhase.red]
    [TrafficLightPhase.red, TrafficLightPhase.red] (by decide)).1

/-! ## Theorems on `cycleThroughPhases` -/

/-- C5: from a freshly constructed light (phase red, empty queue), one cycling thread and no
consumer, after any run of loop iterations the values sent into the queue alternate and begin
with green: the k-th sent value (k from 1) is green when k is odd and red when k is even, and
any two consecutive sent values differ. -/
theorem TrafficLight.cycleThroughPhases_alternates (ticksPerSecond : Nat) (start0 dice0 : Int)
    (inputs : List CycleInput) :
    TrafficLight.ctor.getCurrentPhase = TrafficLightPhase.red ∧
      TrafficLight.ctor._messages = [] ∧
      (∀ k, 1 ≤ k → k ≤ (sentPhases ticksPerSecond start0 dice0 inputs).length →
        (sentPhases ticksPerSecond start0 dice0 inputs)[k - 1]?
          = some (if k % 2 = 1 then TrafficLightPhase.green else TrafficLightPhase.red)) ∧
      (∀ k, 1 ≤ k → k < (sentPhases ticksPerSecond start0 dice0 inputs).length →
        (sentPhases ticksPerSecond start0 dice0 inputs)[k - 1]?
          ≠ (sentPhases ticksPerSecond start0 dice0 inputs)[k]?) := by
  have halt := cycle_alternating ticksPerSecond inputs
    { light := TrafficLight.ctor, start := start0, dice_rand := dice0 } rfl rfl
  have hget := alternating_getElem (sentPhases ticksPerSecond start0 dice0 inputs) _ halt
  refine ⟨rfl, rfl, ?_, ?_⟩
  · intro k h1 hk
    rw [hget (k - 1), if_pos (by omega)]
    by_cases hodd : k % 2 = 1
    · have : (k - 1) % 2 = 0 := by omega
      simp [hodd, this]
    · have : ¬ (k - 1) % 2 = 0 := by omega
      simp [hodd, this]
  · intro k h1 hk
    rw [hget (k - 1), hget k, if_pos (by omega), if_pos hk]
    by_cases hodd : k % 2 = 0
    · have : ¬ (k - 1) % 2 = 0 := by omega
      simp [hodd, this]
    · have : (k - 1) % 2 = 0 := by omega
      simp [hodd, this]

/-- C6, as stated, fails: on a millisecond clock an elapsed time of 3500 ms lies in the open
interval (3000 ms, 7000 ms), yet the firing test is false there for the target 4, because the
elapsed time is truncated to 3 whole seconds. -/
theorem firesAt_open_interval_refuted :
    ¬ (∀ t e : Int, (t = 4 ∨ t = 5 ∨ t = 6) →
        (firesAt 1000 e t = true ↔ 3000 < e ∧ e < 7000)) := by
  intro h
  have h1 := (h 4 3500 (Or.inl rfl)).2 (by decide)
  revert h1
  decide

/-- C6, amended: for every target in {4, 5, 6} and every elapsed time `e` in clock ticks, the
firing test is computed on `e` truncated to whole seconds and holds exactly when that count is
4, 5 or 6, that is when `e` is at least 4 seconds and less than 7 seconds (on a millisecond
clock: 4000 ms ≤ e < 7000 ms). -/
theorem firesAt_iff_four_to_seven (ticksPerSecond : Nat) (htps : 0 < ticksPerSecond)
    (t e : Int) (ht : t = 4 ∨ t = 5 ∨ t = 6) :
    firesAt ticksPerSecond e t = firingTest (e.tdiv (ticksPerSecond : Int)) t ∧
      (firesAt ticksPerSecond e t = true ↔
        3 < duration_cast_seconds ticksPerSecond e ∧
          duration_cast_seconds ticksPerSecond e < 7) ∧
      (firesAt ticksPerSecond e t = true ↔
        4 * (ticksPerSecond : Int) ≤ e ∧ e < 7 * (ticksPerSecond : Int)) := by
  have h4 : 4 ≤ t := by omega
  have h6 : t ≤ 6 := by omega
  have hpos : (0 : Int) < (ticksPerSecond : Int) := by exact_mod_cast htps
  have hsec : firesAt ticksPerSecond e t = true ↔
      3 < duration_cast_seconds ticksPerSecond e ∧
        duration_cast_seconds ticksPerSecond e < 7 := by
    unfold firesAt
    rw [firingTest_eq _ t h4 h6]
    simp
  refine ⟨rfl, hsec, ?_⟩
  rw [hsec]
  by_cases he : 0 ≤ e
  · rw [duration_cast_seconds_nonneg ticksPerSecond e he]
    have hlow : 3 < e / (ticksPerSecond : Int) ↔ 4 * (ticksPerSecond : Int) ≤ e := by
      rw [← Int.le_ediv_iff_mul_le hpos]
      omega
    rw [hlow, Int.ediv_lt_iff_lt_mul hpos]
  · have hneg := duration_cast_seconds_neg ticksPerSecond e (by omega)
    constructor
    · intro h
      omega
    · intro h
      omega

theorem firesAt_iff_four_to_seven_witness :
    (firesAt 1000 3500 4 = true ↔ 4 * ((1000 : Nat) : Int) ≤ 3500 ∧
      (3500 : Int) < 7 * ((1000 : Nat) : Int)) ∧
      (firesAt 1000 4000 4 = true ↔ 4 * ((1000 : Nat) : Int) ≤ 4000 ∧
        (4000 : Int) < 7 * ((1000 : Nat) : Int)) :=
  ⟨(firesAt_iff_four_to_seven 1000 (by decide) 4 3500 (Or.inl rfl)).2.2,
    (firesAt_iff_four_to_seven 1000 (by decide) 4 4000 (Or.inl rfl)).2.2⟩

/-- C7: for every target `t` in {4, 5, 6}, `min(3, t) = 3` and `max(7, t) = 7`, so for every
whole-second count `d` the firing test equals `3 < d < 7` and has the same value for all three
targets. -/
theorem firingTest_independent_of_target (t : Int) (ht : t = 4 ∨ t = 5 ∨ t = 6) :
    min 3 t = 3 ∧ max 7 t = 7 ∧
      ∀ d : Int, (firingTest d t = true ↔ 3 < d ∧ d < 7) ∧
        firingTest d 4 = firingTest d t ∧ firingTest d 5 = firingTest d t ∧
        firingTest d 6 = firingTest d t := by
  have h4 : 4 ≤ t := by omega
  have h6 : t ≤ 6 := by omega
  refine ⟨min_eq_left (by omega), max_eq_left (by omega), ?_⟩
  intro d
  refine ⟨?_, ?_, ?_, ?_⟩
  · rw [firingTest_eq d t h4 h6]
    simp
  · rw [firingTest_eq d t h4 h6, firingTest_eq d 4 (by decide) (by decide)]
  · rw [firingTest_eq d t h4 h6, firingTest_eq d 5 (by decide) (by decide)]
  · rw [firingTest_eq d t h4 h6, firingTest_eq d 6 (by decide) (by decide)]

theorem firingTest_independent_of_target_witness :
    min 3 (5 : Int) = 3 ∧ max 7 (5 : Int) = 7 ∧
      ∀ d : Int, (firingTest d 5 = true ↔ 3 < d ∧ d < 7) ∧
        firingTest d 4 = firingTest d 5 ∧ firingTest d 5 = firingTest d 5 ∧
        firingTest d 6 = firingTest d 5 :=
  firingTest_independent_of_target 5 (Or.inr (Or.inl rfl))

/-- C10: in one cycling thread with a monotone clock, if at some iteration the whole-second
count since the last toggle is 7 or more, then whatever the current target in {4, 5, 6}, the
firing test is false at that iteration and at every later one, and after every number of
further iterations the state is unchanged: `start` is not reset, the current phase does not
change and nothing more is sent into the queue. -/
theorem TrafficLight.cycleThroughPhases_stuck_after_seven (ticksPerSecond : Nat)
    (htps : 0 < ticksPerSecond) (st : CycleState)
    (hd : st.dice_rand = 4 ∨ st.dice_rand = 5 ∨ st.dice_rand = 6)
    (inp : CycleInput) (rest : List CycleInput) (hmono : MonotoneClock (inp :: rest))
    (h7 : 7 ≤ duration_cast_seconds ticksPerSecond (inp.now_end - st.start)) :
    (∀ j ∈ inp :: rest,
        firesAt ticksPerSecond (j.now_end - st.start) st.dice_rand = false) ∧
      (∀ k, ((inp :: rest).take k).foldl (cycleIteration ticksPerSecond) st = st) := by
  have h4 : 4 ≤ st.dice_rand := by omega
  have h6 : st.dice_rand ≤ 6 := by omega
  refine ⟨(cycle_stuck ticksPerSecond htps st h4 h6 rest inp h7 hmono).1, ?_⟩
  intro k
  cases k with
  | zero => rfl
  | succ k =>
    have hc : List.Chain (fun a b => a.now_end ≤ b.now_end) inp (rest.take k) := by
      have := List.Chain'.take hmono (k + 1)
      simpa using this
    simpa using (cycle_stuck ticksPerSecond htps st h4 h6 (rest.take k) inp h7 hc).2

theorem TrafficLight.cycleThroughPhases_stuck_after_seven_witness :
    (∀ j ∈ [({ now_end := 7000, now_start := 7001, dice := 4 } : CycleInput),
          { now_end := 9000, now_start := 9001, dice := 6 }],
        firesAt 1000 (j.now_end - 0) 5 = false) ∧
      (∀ k, ([({ now_end := 7000, now_start := 7001, dice := 4 } : CycleInput),
          { now_end := 9000, now_start := 9001, dice := 6 }].take k).foldl
            (cycleIteration 1000) { light := TrafficLight.ctor, start := 0, dice_rand := 5 }
          = { light := TrafficLight.ctor, start := 0, dice_rand := 5 }) :=
  TrafficLight.cycleThroughPhases_stuck_after_seven 1000 (by decide)
    { light := TrafficLight.ctor, start := 0, dice_rand := 5 } (Or.inr (Or.inl rfl))
    { now_end := 7000, now_start := 7001, dice := 4 }
    [{ now_end := 9000, now_start := 9001, dice := 6 }]
    (by simp [MonotoneClock]) (by decide)
